import Mathlib

/-!
Verification of the transform stage of the movies ETL pipeline
(`src/etl/transform.py`).

The pandas dataframe is modelled as a list of records.  A dataframe cell
is a `Val`: missing/NaN, an infinite float, a finite number (modelled as
an exact rational; the source computes in float64, the claims under
study do not depend on float rounding error), or a string.  Strings that
the genre machinery manipulates are modelled as `List Char`, with
split/strip/join written out explicitly so that they mirror Python's
`str.split(',')`, `str.strip()` and `", ".join(...)`.
-/

namespace MoviesEtl

/-- A dataframe cell: NaN/missing, an IEEE infinity, a finite number
(exact rational model of float64), or a string. -/
inductive Val where
  | na
  | posInf
  | negInf
  | num (q : ℚ)
  | str (s : String)
deriving DecidableEq

/-- Python `str.strip()` whitespace set (`' '`, `\t`, `\n`, `\r`, `\x0b`, `\x0c`). -/
def isPySpace (c : Char) : Bool :=
  c == ' ' || c == '\t' || c == '\n' || c == '\r' || c == '\x0b' || c == '\x0c'

/-- Drop trailing whitespace characters (the right half of `str.strip()`). -/
def trimEnd : List Char → List Char
  | [] => []
  | c :: rest =>
    match trimEnd rest with
    | [] => if isPySpace c then [] else [c]
    | x :: xs => c :: x :: xs

/-- Python `str.strip()`: drop leading and trailing whitespace. -/
def pyStrip (l : List Char) : List Char :=
  trimEnd (l.dropWhile isPySpace)

/-- Python `str.split(sep)` for a one-character separator: splits at every
occurrence of `sep`; the empty string yields `[[]]`, mirroring
`"".split(',') == ['']`. -/
def splitChar (sep : Char) : List Char → List (List Char)
  | [] => [[]]
  | c :: rest =>
    if c = sep then [] :: splitChar sep rest
    else
      match splitChar sep rest with
      | [] => [[c]]
      | p :: ps => (c :: p) :: ps

/-- Python `", ".join(pieces)`. -/
def joinCommaSpace : List (List Char) → List Char
  | [] => []
  | [a] => a
  | a :: b :: rest => a ++ ',' :: ' ' :: joinCommaSpace (b :: rest)

/-- The `GENRE_CORRECTIONS` dict of `transform.py`: typo / non-standard
genre label to standardized value, in source order. -/
def GENRE_CORRECTIONS : List (List Char × List Char) :=
  [("Horor".data, "Horror".data),
   ("Mistery".data, "Mystery".data),
   ("Misterija".data, "Mystery".data),
   ("Krimi".data, "Crime".data),
   ("Komedija".data, "Comedy".data),
   ("Akcija".data, "Action".data),
   ("Romantic Drama".data, "Drama".data),
   ("Comedy-Drama".data, "Drama".data),
   ("Crime Drama".data, "Crime".data),
   ("Sports Drama".data, "Drama".data),
   ("War Drama".data, "Drama".data),
   ("Historical Drama".data, "Drama".data),
   ("Thriller".data, "Thriller".data),
   ("Avant-Garde".data, "Documentary".data)]

/-- `fix_genre`: strip the label, then look it up in `GENRE_CORRECTIONS`
(exact match, `dict.get(genre, genre)`); unmapped labels pass through. -/
def fix_genre (g : List Char) : List Char :=
  let t := pyStrip g
  match GENRE_CORRECTIONS.find? (fun p => p.1 == t) with
  | some p => p.2
  | none => t

/-- The `seen`-set loop of `clean_genres`: keep the first occurrence of
each label, drop later duplicates. -/
def dedupFirst (seen : List (List Char)) : List (List Char) → List (List Char)
  | [] => []
  | g :: gs =>
    if g ∈ seen then dedupFirst seen gs
    else g :: dedupFirst (g :: seen) gs

/-- `clean_genres` on a (non-missing) genre string: split on `','`, fix
each piece, drop duplicates keeping first occurrences. -/
def clean_genres (s : List Char) : List (List Char) :=
  dedupFirst [] ((splitChar ',' s).map fix_genre)

/-- `clean_genres` on the raw genre cell, including the `pd.isna` guard:
a missing genre yields no labels. -/
def clean_genres_opt : Option String → List (List Char)
  | none => []
  | some s => clean_genres s.data

/-! ### Numeric coercion (`pd.to_numeric(..., errors='coerce')`) -/

/-- Numeric value of a decimal digit character. -/
def digitVal (c : Char) : Nat := c.toNat - 48

/-- Value of a digit string read in base 10. -/
def digitsVal (l : List Char) : Nat :=
  l.foldl (fun n c => n * 10 + digitVal c) 0

/-- Parse a nonempty all-digit string. -/
def parseDigits (l : List Char) : Option Nat :=
  if !l.isEmpty && l.all Char.isDigit then some (digitsVal l) else none

/-- Strip one optional leading sign, returning whether it was `'-'`. -/
def stripSign : List Char → Bool × List Char
  | '-' :: r => (true, r)
  | '+' :: r => (false, r)
  | l => (false, l)

/-- Parse an unsigned decimal mantissa — `"5"`, `"5."`, `".5"`, `"5.25"` —
as an integer digit value paired with a power-of-ten exponent:
`"5.25"` becomes `(525, -2)`, denoting `525 * 10 ^ (-2)`. -/
def parseMantissa (l : List Char) : Option (Nat × ℤ) :=
  match splitChar '.' l with
  | [ip] => (parseDigits ip).map (fun n => (n, 0))
  | [ip, fp] =>
    if ip.isEmpty && fp.isEmpty then none
    else if ip.all Char.isDigit && fp.all Char.isDigit then
      some (digitsVal (ip ++ fp), -(fp.length : ℤ))
    else none
  | _ => none

/-- Parse a signed exponent part. -/
def parseExp (l : List Char) : Option ℤ :=
  let p := stripSign l
  (parseDigits p.2).map (fun d => if p.1 then -(d : ℤ) else (d : ℤ))

/-- Parse an unsigned decimal with optional exponent as a pair
`(D, e)` denoting `D * 10 ^ e`. -/
def parseDec (l : List Char) : Option (Nat × ℤ) :=
  match splitChar 'e' l with
  | [m] => parseMantissa m
  | [m, ex] =>
    match parseMantissa m, parseExp ex with
    | some d, some z => some (d.1, d.2 + z)
    | _, _ => none
  | _ => none

/-- The smallest magnitude that float64 rounds to infinity:
`2 ^ 1024 - 2 ^ 970 = (2 ^ 54 - 1) * 2 ^ 970`, one half-ulp above the
largest finite double — written as a numeral so that comparisons against
it reduce; `floatOverflowBound_eq` below certifies the value. -/
def floatOverflowBound : Nat := 179769313486231580793728971405303415079934132710037826936173778980444968292764750946649017977587207096330286416692887910946555547851940402630657488671505820681908902000708383676273854845817711531764475730270069855571366959622842914819860834936475292719074168444365510704342711559699508093042880177904174497792

/-- Whether the decimal `D * 10 ^ e` overflows float64 to infinity,
decided on integers. -/
def decOverflow (D : Nat) (e : ℤ) : Bool :=
  if 0 ≤ e then floatOverflowBound ≤ D * 10 ^ e.toNat
  else floatOverflowBound * 10 ^ (-e).toNat ≤ D

/-- The exact rational value of the decimal `D * 10 ^ e` (non-overflowing
finite values are kept exact; float64's 53-bit mantissa rounding is not
modelled, per the header). -/
def decValue (D : Nat) (e : ℤ) : ℚ :=
  if 0 ≤ e then ((D * 10 ^ e.toNat : Nat) : ℚ)
  else (D : ℚ) / ((10 ^ (-e).toNat : Nat) : ℚ)

/-- Model of the string coercion of `pd.to_numeric(..., errors='coerce')`:
optional surrounding whitespace and sign, then either one of the special
literals `inf` / `infinity` / `nan` (case-insensitive, as pandas'
parser and `float()` accept) or a decimal mantissa with optional
case-insensitive exponent; a finite decimal whose magnitude reaches the
float64 overflow bound (e.g. `"1e999"`) coerces to a signed infinity.
Returns the coerced cell — a finite number, a signed infinity, or NaN
for the `nan` literal — or `none` when the string is unparseable. -/
def parseNum (s : List Char) : Option Val :=
  let t := pyStrip s
  let p := stripSign t
  let body := p.2.map Char.toLower
  if body = ("inf").data ∨ body = ("infinity").data then
    some (if p.1 then Val.negInf else Val.posInf)
  else if body = ("nan").data then
    some Val.na
  else
    (parseDec body).map (fun d =>
      if decOverflow d.1 d.2 then (if p.1 then Val.negInf else Val.posInf)
      else Val.num (if p.1 then -decValue d.1 d.2 else decValue d.1 d.2))

/-- Columnwise `pd.to_numeric(col, errors='coerce')` on one cell:
numbers and infinities pass through, strings are parsed into the cell
they coerce to (an unparseable string becomes NaN), NaN stays NaN. -/
def to_numeric : Val → Val
  | Val.str s =>
    match parseNum s.data with
    | some v => v
    | none => Val.na
  | Val.na => Val.na
  | v => v

/-- `col.replace('unknown', np.nan)` on one cell. -/
def replaceUnknown (v : Val) : Val :=
  if v = Val.str ("unknown") then Val.na else v

/-- `col.str.strip()` on one cell: strings are stripped, every
non-string value (including NaN) becomes NaN, as with the pandas `.str`
accessor. -/
def strStrip : Val → Val
  | Val.str s => Val.str (String.mk (pyStrip s.data))
  | _ => Val.na

/-! ### Float64 arithmetic on cells (IEEE-754 special-value rules,
finite values exact). -/

/-- Cellwise subtraction. -/
def subV : Val → Val → Val
  | Val.num a, Val.num b => Val.num (a - b)
  | Val.num _, Val.posInf => Val.negInf
  | Val.num _, Val.negInf => Val.posInf
  | Val.posInf, Val.num _ => Val.posInf
  | Val.posInf, Val.negInf => Val.posInf
  | Val.negInf, Val.num _ => Val.negInf
  | Val.negInf, Val.posInf => Val.negInf
  | _, _ => Val.na

/-- Cellwise division: a nonzero finite value divided by zero is a
signed infinity, `0/0` is NaN — numpy float division does not raise. -/
def divV : Val → Val → Val
  | Val.num a, Val.num b =>
    if b = 0 then
      if 0 < a then Val.posInf else if a < 0 then Val.negInf else Val.na
    else Val.num (a / b)
  | Val.num _, Val.posInf => Val.num 0
  | Val.num _, Val.negInf => Val.num 0
  | Val.posInf, Val.num b => if b < 0 then Val.negInf else Val.posInf
  | Val.negInf, Val.num b => if b < 0 then Val.posInf else Val.negInf
  | _, _ => Val.na

/-- Cellwise multiplication. -/
def mulV : Val → Val → Val
  | Val.num a, Val.num b => Val.num (a * b)
  | Val.num a, Val.posInf =>
    if 0 < a then Val.posInf else if a < 0 then Val.negInf else Val.na
  | Val.num a, Val.negInf =>
    if 0 < a then Val.negInf else if a < 0 then Val.posInf else Val.na
  | Val.posInf, Val.num b =>
    if 0 < b then Val.posInf else if b < 0 then Val.negInf else Val.na
  | Val.negInf, Val.num b =>
    if 0 < b then Val.negInf else if b < 0 then Val.posInf else Val.na
  | Val.posInf, Val.posInf => Val.posInf
  | Val.posInf, Val.negInf => Val.negInf
  | Val.negInf, Val.posInf => Val.negInf
  | Val.negInf, Val.negInf => Val.posInf
  | _, _ => Val.na

/-- numpy rounding: round half to even. -/
def roundHalfEven (q : ℚ) : ℤ :=
  let f := ⌊q⌋
  let r := q - (f : ℚ)
  if r < 1 / 2 then f
  else if 1 / 2 < r then f + 1
  else if 2 ∣ f then f else f + 1

/-- `Series.round(2)` on a finite value. -/
def round2 (q : ℚ) : ℚ := (roundHalfEven (q * 100) : ℚ) / 100

/-- `Series.round(2)` on a cell: infinities and NaN are unchanged. -/
def round2V : Val → Val
  | Val.num q => Val.num (round2 q)
  | Val.posInf => Val.posInf
  | Val.negInf => Val.negInf
  | _ => Val.na

/-- The roi column formula of `transform`:
`((box_office - budget) / budget * 100).round(2)`. -/
def roiV (budget box : Val) : Val :=
  round2V (mulV (divV (subV box budget) budget) (Val.num 100))

/-! ### Records and the transform -/

/-- One raw row (`RawRecord`): the nine columns `transform` reads, plus
the remaining columns (`extra`), passed through opaquely.  The genre
cell is a string or missing — `pd.read_csv` yields exactly strings and
NaN for this column — matching the `pd.isna` / `str.split` uses in
`clean_genres`. -/
structure RawRecord where
  title : Val
  release_year : Val
  director : Val
  language : Val
  country : Val
  duration : Val
  budget : Val
  box_office : Val
  genre : Option String
  extra : List (String × Val)
deriving DecidableEq

/-- One row of `df_movies`: the cleaned columns, the derived `roi`, the
untouched extra columns — and no genre column. -/
structure CleanedMovie where
  title : Val
  release_year : Val
  director : Val
  language : Val
  country : Val
  duration : Val
  budget : Val
  box_office : Val
  roi : Val
  extra : List (String × Val)
deriving DecidableEq

/-- One row of `df_movie_genres`. -/
structure MovieGenreLink where
  title : Val
  genre : List Char
deriving DecidableEq

/-- The per-row effect of the column operations of `transform` that
build `df` and then `df_movies`: replace `'unknown'` in box_office,
coerce the four numeric columns, strip the four text columns, add roi,
drop genre. -/
def cleanMovie (r : RawRecord) : CleanedMovie :=
  let budget := to_numeric r.budget
  let box := to_numeric (replaceUnknown r.box_office)
  { title := strStrip r.title
    release_year := to_numeric r.release_year
    director := strStrip r.director
    language := strStrip r.language
    country := strStrip r.country
    duration := to_numeric r.duration
    budget := budget
    box_office := box
    roi := roiV budget box
    extra := r.extra }

/-- The genre rows one record contributes in the `iterrows` loop of
`transform`: one `{'title': row['title'], 'genre': genre}` per cleaned
genre, where `row['title']` is the already-stripped title. -/
def genreLinks (r : RawRecord) : List MovieGenreLink :=
  (clean_genres_opt r.genre).map (fun g => { title := strStrip r.title, genre := g })

/-- `transform`: the pair `(df_movies, df_movie_genres)`. -/
def transform (rs : List RawRecord) : List CleanedMovie × List MovieGenreLink :=
  (rs.map cleanMovie, rs.flatMap genreLinks)

/-- The column names of a `df_movies` row: the nine named columns kept
by `transform` plus the passed-through extra columns. -/
def movieColumns (m : CleanedMovie) : List String :=
  ["title", "release_year", "director", "language", "country",
   "duration", "budget", "box_office", "roi"] ++ m.extra.map Prod.fst

/-! ### Concrete records used in the examples -/

/-- A record with zero budget and positive box office. -/
def zeroBudgetRecord : RawRecord :=
  { title := Val.str ("Zero"), release_year := Val.na, director := Val.na,
    language := Val.na, country := Val.na, duration := Val.na,
    budget := Val.num 0, box_office := Val.num 250,
    genre := none, extra := [] }

/-- The budget=100 / box_office=250 record of the roi example. -/
def roiExampleRecord : RawRecord :=
  { title := Val.str ("Movie"), release_year := Val.na, director := Val.na,
    language := Val.na, country := Val.na, duration := Val.na,
    budget := Val.str ("100"), box_office := Val.str ("250"),
    genre := none, extra := [] }

/-- A record whose budget cell is non-numeric garbage. -/
def garbageRecord : RawRecord :=
  { title := Val.str ("Bad"), release_year := Val.na, director := Val.na,
    language := Val.na, country := Val.na, duration := Val.na,
    budget := Val.str ("garbage"), box_office := Val.str ("unknown"),
    genre := none, extra := [] }

/-- The end-to-end scenario record: `{title: " Dune ", genre: "Action, Akcija",
budget: "165000000", box_office: "unknown"}`. -/
def duneRecord : RawRecord :=
  { title := Val.str (" Dune "), release_year := Val.na, director := Val.na,
    language := Val.na, country := Val.na, duration := Val.na,
    budget := Val.str ("165000000"), box_office := Val.str ("unknown"),
    genre := some ("Action, Akcija"), extra := [] }

/-- A record carrying an extra column not named in the transform. -/
def extraColumnRecord : RawRecord :=
  { title := Val.str ("Extra"), release_year := Val.na, director := Val.na,
    language := Val.na, country := Val.na, duration := Val.na,
    budget := Val.na, box_office := Val.na,
    genre := none, extra := [(("color"), Val.str ("red"))] }

/-! ### Lemmas on stripping -/

theorem dropWhile_head_false {l : List Char} {c : Char} {t : List Char}
    (h : l.dropWhile isPySpace = c :: t) : isPySpace c = false := by
  induction l with
  | nil => simp at h
  | cons a rest ih =>
    rw [List.dropWhile_cons] at h
    by_cases ha : isPySpace a
    · exact ih (by simpa [ha] using h)
    · rw [if_neg (by simpa using ha)] at h
      cases h
      simpa using ha

theorem trimEnd_cons (c : Char) (rest : List Char) :
    trimEnd (c :: rest) = match trimEnd rest with
      | [] => if isPySpace c then [] else [c]
      | x :: xs => c :: x :: xs := rfl

theorem trimEnd_head (l : List Char) :
    trimEnd l = [] ∨ (trimEnd l).head? = l.head? := by
  cases l with
  | nil => exact Or.inl rfl
  | cons c rest =>
    rw [trimEnd_cons]
    cases h : trimEnd rest with
    | nil =>
      by_cases hc : isPySpace c
      · simp [hc]
      · simp [hc]
    | cons x xs => simp

theorem trimEnd_idem (l : List Char) : trimEnd (trimEnd l) = trimEnd l := by
  induction l with
  | nil => rfl
  | cons c rest ih =>
    rw [trimEnd_cons]
    cases h : trimEnd rest with
    | nil =>
      by_cases hc : isPySpace c
      · simp [hc, trimEnd]
      · simp [hc, trimEnd]
    | cons x xs =>
      have h2 : trimEnd (x :: xs) = x :: xs := by
        conv_lhs => rw [← h, ih, h]
      simp [trimEnd_cons, h2]

theorem trimEnd_sublist (l : List Char) : List.Sublist (trimEnd l) l := by
  induction l with
  | nil => simp [trimEnd]
  | cons c rest ih =>
    rw [trimEnd_cons]
    cases h : trimEnd rest with
    | nil =>
      by_cases hc : isPySpace c
      · simp [hc]
      · simp only [hc, if_false, Bool.false_eq_true]
        exact List.Sublist.cons₂ c (h ▸ ih)
    | cons x xs => exact List.Sublist.cons₂ c (h ▸ ih)

theorem pyStrip_space_cons (l : List Char) : pyStrip (' ' :: l) = pyStrip l := by
  simp [pyStrip, List.dropWhile_cons, show isPySpace ' ' = true from rfl]

theorem pyStrip_idem (l : List Char) : pyStrip (pyStrip l) = pyStrip l := by
  unfold pyStrip
  have hdrop : (trimEnd (l.dropWhile isPySpace)).dropWhile isPySpace
      = trimEnd (l.dropWhile isPySpace) := by
    cases ht : trimEnd (l.dropWhile isPySpace) with
    | nil => rfl
    | cons c t =>
      rcases trimEnd_head (l.dropWhile isPySpace) with h | h
      · rw [ht] at h; cases h
      · rw [ht] at h
        cases hm : l.dropWhile isPySpace with
        | nil => rw [hm] at h; simp at h
        | cons d m =>
          rw [hm] at h
          simp only [List.head?] at h
          cases h
          have := dropWhile_head_false hm
          simp [List.dropWhile_cons, this]
  rw [hdrop, trimEnd_idem]

theorem pyStrip_not_mem {c : Char} {l : List Char} (h : c ∉ l) : c ∉ pyStrip l :=
  fun hmem => h (List.Sublist.mem hmem
    ((trimEnd_sublist (l.dropWhile isPySpace)).trans (List.dropWhile_sublist _)))

/-! ### Lemmas on splitting and joining -/

theorem splitChar_ne_nil (sep : Char) (s : List Char) : splitChar sep s ≠ [] := by
  induction s with
  | nil => simp [splitChar]
  | cons c rest ih =>
    simp only [splitChar]
    by_cases h : c = sep
    · simp [h]
    · cases hs : splitChar sep rest with
      | nil => simp [h]
      | cons p ps => simp [h, hs]

theorem splitChar_cons_of_ne {sep c : Char} (h : ¬c = sep) {t : List Char}
    {q : List Char} {qs : List (List Char)} (hq : splitChar sep t = q :: qs) :
    splitChar sep (c :: t) = (c :: q) :: qs := by
  simp [splitChar, h, hq]

theorem splitChar_of_not_mem {sep : Char} {a : List Char} (h : sep ∉ a) :
    splitChar sep a = [a] := by
  induction a with
  | nil => rfl
  | cons c rest ih =>
    have hc : ¬c = sep := fun hh => h (by simp [hh])
    have hr : splitChar sep rest = [rest] := ih (fun hh => h (by simp [hh]))
    simp [splitChar, hc, hr]

theorem splitChar_append_sep {sep : Char} {a t : List Char} (h : sep ∉ a) :
    splitChar sep (a ++ sep :: t) = a :: splitChar sep t := by
  induction a with
  | nil => simp [splitChar]
  | cons c rest ih =>
    have hc : ¬c = sep := fun hh => h (by simp [hh])
    have hr := ih (fun hh => h (by simp [hh]))
    cases hs : splitChar sep t with
    | nil => exact absurd hs (splitChar_ne_nil sep t)
    | cons q qs =>
      rw [hs] at hr
      show splitChar sep (c :: (rest ++ sep :: t)) = _
      rw [splitChar_cons_of_ne hc hr]


theorem mem_splitChar_not_mem {sep : Char} {s p : List Char}
    (hp : p ∈ splitChar sep s) : sep ∉ p := by
  induction s generalizing p with
  | nil =>
    simp only [splitChar, List.mem_singleton] at hp
    simp [hp]
  | cons c rest ih =>
    simp only [splitChar] at hp
    by_cases h : c = sep
    · rw [if_pos h] at hp
      rcases List.mem_cons.mp hp with rfl | hp
      · simp
      · exact ih hp
    · rw [if_neg h] at hp
      cases hs : splitChar sep rest with
      | nil => exact absurd hs (splitChar_ne_nil sep rest)
      | cons q qs =>
        rw [hs] at hp
        rcases List.mem_cons.mp hp with rfl | hp
        · intro hmem
          rcases List.mem_cons.mp hmem with rfl | hmem
          · exact h rfl
          · exact ih (hs ▸ List.mem_cons_self q qs) hmem
        · exact ih (hs ▸ List.mem_cons_of_mem q hp)

theorem splitChar_joinCommaSpace (L : List (List Char)) (a : List Char)
    (ha : ',' ∉ a) (hL : ∀ x ∈ L, ',' ∉ x) :
    splitChar ',' (joinCommaSpace (a :: L)) = a :: L.map (fun x => ' ' :: x) := by
  induction L generalizing a with
  | nil => simp [joinCommaSpace, splitChar_of_not_mem ha]
  | cons b L2 ih =>
    have hb : ',' ∉ b := hL b (by simp)
    have hrest := ih b hb (fun x hx => hL x (by simp [hx]))
    have hj : joinCommaSpace (a :: b :: L2)
        = a ++ ',' :: ' ' :: joinCommaSpace (b :: L2) := rfl
    rw [hj, splitChar_append_sep ha,
      splitChar_cons_of_ne (show ¬(' ' = ',') by decide) hrest]
    simp

/-! ### Lemmas on genre correction -/

theorem fix_genre_space (g : List Char) : fix_genre (' ' :: g) = fix_genre g := by
  simp [fix_genre, pyStrip_space_cons]

theorem fix_genre_values : ∀ p ∈ GENRE_CORRECTIONS, fix_genre p.2 = p.2 := by decide

theorem corrections_stripped : ∀ p ∈ GENRE_CORRECTIONS, pyStrip p.2 = p.2 := by decide

theorem corrections_comma_free : ∀ p ∈ GENRE_CORRECTIONS, ',' ∉ p.2 := by decide

theorem fix_genre_idem (g : List Char) : fix_genre (fix_genre g) = fix_genre g := by
  rcases hf : GENRE_CORRECTIONS.find? (fun p => p.1 == pyStrip g) with _ | p
  · have h1 : fix_genre g = pyStrip g := by simp [fix_genre, hf]
    rw [h1]
    simp [fix_genre, pyStrip_idem, hf]
  · have h1 : fix_genre g = p.2 := by simp [fix_genre, hf]
    rw [h1]
    exact fix_genre_values p (List.mem_of_find?_eq_some hf)

theorem fix_genre_stripped (g : List Char) : pyStrip (fix_genre g) = fix_genre g := by
  rcases hf : GENRE_CORRECTIONS.find? (fun p => p.1 == pyStrip g) with _ | p
  · have h1 : fix_genre g = pyStrip g := by simp [fix_genre, hf]
    rw [h1, pyStrip_idem]
  · have h1 : fix_genre g = p.2 := by simp [fix_genre, hf]
    rw [h1]
    exact corrections_stripped p (List.mem_of_find?_eq_some hf)

theorem fix_genre_comma_free {g : List Char} (h : ',' ∉ g) : ',' ∉ fix_genre g := by
  rcases hf : GENRE_CORRECTIONS.find? (fun p => p.1 == pyStrip g) with _ | p
  · have h1 : fix_genre g = pyStrip g := by simp [fix_genre, hf]
    rw [h1]
    exact pyStrip_not_mem h
  · have h1 : fix_genre g = p.2 := by simp [fix_genre, hf]
    rw [h1]
    exact corrections_comma_free p (List.mem_of_find?_eq_some hf)

/-! ### Lemmas on the seen-set loop -/

theorem dedupFirst_sublist (seen l : List (List Char)) :
    List.Sublist (dedupFirst seen l) l := by
  induction l generalizing seen with
  | nil => simp [dedupFirst]
  | cons g gs ih =>
    simp only [dedupFirst]
    by_cases h : g ∈ seen
    · rw [if_pos h]
      exact (ih seen).cons g
    · rw [if_neg h]
      exact (ih (g :: seen)).cons₂ g

theorem dedupFirst_nodup (l : List (List Char)) : ∀ seen,
    (dedupFirst seen l).Nodup ∧ ∀ x ∈ dedupFirst seen l, x ∉ seen := by
  induction l with
  | nil => intro seen; simp [dedupFirst]
  | cons g gs ih =>
    intro seen
    simp only [dedupFirst]
    by_cases h : g ∈ seen
    · rw [if_pos h]
      exact ih seen
    · rw [if_neg h]
      obtain ⟨hn, hs⟩ := ih (g :: seen)
      refine ⟨List.nodup_cons.mpr ⟨fun hmem => hs g hmem (by simp), hn⟩, ?_⟩
      intro x hx
      rcases List.mem_cons.mp hx with rfl | hx
      · exact h
      · exact fun hxs => hs x hx (by simp [hxs])

theorem dedupFirst_eq_self {l : List (List Char)} (h : l.Nodup) :
    ∀ seen, (∀ x ∈ l, x ∉ seen) → dedupFirst seen l = l := by
  induction l with
  | nil => intro seen _; rfl
  | cons g gs ih =>
    intro seen hs
    have hg : g ∉ seen := hs g (by simp)
    simp only [dedupFirst, if_neg hg]
    congr 1
    refine ih (List.Nodup.of_cons h) (g :: seen) ?_
    intro x hx hmem
    rcases List.mem_cons.mp hmem with rfl | hmem
    · exact (List.nodup_cons.mp h).1 hx
    · exact hs x (List.mem_cons_of_mem g hx) hmem

theorem mem_dedupFirst_of_mem {l : List (List Char)} {x : List Char} :
    ∀ seen, x ∈ l → x ∈ dedupFirst seen l ∨ x ∈ seen := by
  induction l with
  | nil => intro seen hx; cases hx
  | cons g gs ih =>
    intro seen hx
    simp only [dedupFirst]
    by_cases h : g ∈ seen
    · rw [if_pos h]
      rcases List.mem_cons.mp hx with rfl | hx
      · exact Or.inr h
      · exact ih seen hx
    · rw [if_neg h]
      rcases List.mem_cons.mp hx with rfl | hx
      · exact Or.inl (by simp)
      · rcases ih (g :: seen) hx with hin | hseen
        · exact Or.inl (List.mem_cons_of_mem g hin)
        · rcases List.mem_cons.mp hseen with rfl | hseen
          · exact Or.inl (by simp)
          · exact Or.inr hseen

/-! ### Lemmas on clean_genres -/

theorem clean_genres_nodup (s : List Char) : (clean_genres s).Nodup :=
  (dedupFirst_nodup ((splitChar ',' s).map fix_genre) []).1

theorem clean_genres_sublist (s : List Char) :
    List.Sublist (clean_genres s) ((splitChar ',' s).map fix_genre) :=
  dedupFirst_sublist [] ((splitChar ',' s).map fix_genre)

theorem mem_clean_genres_of_mem {s : List Char} {x : List Char}
    (hx : x ∈ (splitChar ',' s).map fix_genre) : x ∈ clean_genres s := by
  rcases mem_dedupFirst_of_mem [] hx with h | h
  · exact h
  · cases h

theorem mem_clean_genres_fixed {s x : List Char} (hx : x ∈ clean_genres s) :
    fix_genre x = x := by
  have hm : x ∈ (splitChar ',' s).map fix_genre :=
    List.Sublist.mem hx (clean_genres_sublist s)
  obtain ⟨p, _, rfl⟩ := List.mem_map.mp hm
  exact fix_genre_idem p

theorem mem_clean_genres_stripped {s x : List Char} (hx : x ∈ clean_genres s) :
    pyStrip x = x := by
  have hm : x ∈ (splitChar ',' s).map fix_genre :=
    List.Sublist.mem hx (clean_genres_sublist s)
  obtain ⟨p, _, rfl⟩ := List.mem_map.mp hm
  exact fix_genre_stripped p

theorem mem_clean_genres_comma_free {s x : List Char} (hx : x ∈ clean_genres s) :
    ',' ∉ x := by
  have hm : x ∈ (splitChar ',' s).map fix_genre :=
    List.Sublist.mem hx (clean_genres_sublist s)
  obtain ⟨p, hp, rfl⟩ := List.mem_map.mp hm
  exact fix_genre_comma_free (mem_splitChar_not_mem hp)

theorem clean_genres_ne_nil (s : List Char) : clean_genres s ≠ [] := by
  unfold clean_genres
  cases hm : (splitChar ',' s).map fix_genre with
  | nil =>
    exact absurd (List.map_eq_nil_iff.mp hm) (splitChar_ne_nil ',' s)
  | cons g gs =>
    simp [dedupFirst]

/-- Re-normalizing the comma-space join of a `clean_genres` output is a
no-op: the key step behind idempotence of genre normalization. -/
theorem clean_genres_rejoin (s : List Char) :
    clean_genres (joinCommaSpace (clean_genres s)) = clean_genres s := by
  obtain ⟨a, L2, hL⟩ : ∃ a L2, clean_genres s = a :: L2 := by
    cases h : clean_genres s with
    | nil => exact absurd h (clean_genres_ne_nil s)
    | cons a L2 => exact ⟨a, L2, rfl⟩
  have hmem : ∀ x ∈ a :: L2, x ∈ clean_genres s := fun x hx => hL ▸ hx
  have hsplit : splitChar ',' (joinCommaSpace (a :: L2))
      = a :: L2.map (fun x => ' ' :: x) :=
    splitChar_joinCommaSpace L2 a
      (mem_clean_genres_comma_free (hmem a (by simp)))
      (fun x hx => mem_clean_genres_comma_free (hmem x (by simp [hx])))
  have hfix : ∀ x ∈ a :: L2, fix_genre x = x :=
    fun x hx => mem_clean_genres_fixed (hmem x hx)
  rw [hL]
  calc clean_genres (joinCommaSpace (a :: L2))
      = dedupFirst [] ((splitChar ',' (joinCommaSpace (a :: L2))).map fix_genre) := rfl
    _ = dedupFirst [] ((a :: L2.map (fun x => ' ' :: x)).map fix_genre) := by
        rw [hsplit]
    _ = dedupFirst [] (a :: L2.map fix_genre) := by
        have hmaps : L2.map (fix_genre ∘ fun x => ' ' :: x) = L2.map fix_genre :=
          List.map_congr_left (fun x _ => fix_genre_space x)
        simp only [List.map_cons, List.map_map, hmaps]
        rw [hfix a (by simp)]
    _ = dedupFirst [] (a :: L2) := by
        congr 1
        have : L2.map fix_genre = L2.map id :=
          List.map_congr_left (fun x hx => hfix x (by simp [hx]))
        rw [this, List.map_id]
    _ = a :: L2 := dedupFirst_eq_self (hL ▸ clean_genres_nodup s) [] (by simp)

/-! ### Lemmas on numeric coercion and the roi formula -/

/-- The overflow-bound numeral is `(2 ^ 54 - 1) * 2 ^ 970`, i.e.
`2 ^ 1024 - 2 ^ 970` (the power is assembled by squaring-style steps to
keep each exponent small enough to evaluate). -/
theorem floatOverflowBound_eq : floatOverflowBound = (2 ^ 54 - 1) * 2 ^ 970 := by
  have h97 : (2 : Nat) ^ 97 = 158456325028528675187087900672 := by norm_num
  have h970 : (2 : Nat) ^ 970 = (158456325028528675187087900672 : Nat) ^ 10 := by
    rw [← h97, ← pow_mul]
  rw [h970]
  norm_num [floatOverflowBound]

theorem parseNum_shape {s : List Char} {w : Val} (h : parseNum s = some w) :
    w = Val.na ∨ (∃ q, w = Val.num q) ∨ w = Val.posInf ∨ w = Val.negInf := by
  simp only [parseNum] at h
  split at h
  · rw [Option.some_inj] at h
    subst h
    cases hsg : (stripSign (pyStrip s)).1 <;> simp [hsg]
  · split at h
    · rw [Option.some_inj] at h
      subst h
      simp
    · rcases Option.map_eq_some'.mp h with ⟨d, _, rfl⟩
      by_cases ho : decOverflow d.1 d.2 = true
      · rw [if_pos ho]
        cases hsg : (stripSign (pyStrip s)).1 <;> simp [hsg]
      · rw [if_neg ho]
        exact Or.inr (Or.inl ⟨_, rfl⟩)

/-- Numeric coercion of any cell yields NaN, a finite number, or a
signed infinity — never a string; infinities arise from infinite float
cells, `inf`-literal strings, and overflowing decimals. -/
theorem to_numeric_cases (v : Val) :
    to_numeric v = Val.na ∨ (∃ q, to_numeric v = Val.num q)
    ∨ to_numeric v = Val.posInf ∨ to_numeric v = Val.negInf := by
  cases v with
  | na => exact Or.inl rfl
  | posInf => exact Or.inr (Or.inr (Or.inl rfl))
  | negInf => exact Or.inr (Or.inr (Or.inr rfl))
  | num q => exact Or.inr (Or.inl ⟨q, rfl⟩)
  | str s =>
    cases hp : parseNum s.data with
    | none => exact Or.inl (by simp [to_numeric, hp])
    | some w =>
      have hto : to_numeric (Val.str s) = w := by simp [to_numeric, hp]
      rw [hto]
      exact parseNum_shape hp

theorem replaceUnknown_cases (v : Val) :
    replaceUnknown v = Val.na ∨ replaceUnknown v = v := by
  unfold replaceUnknown
  by_cases h : v = Val.str ("unknown")
  · rw [if_pos h]; exact Or.inl rfl
  · rw [if_neg h]; exact Or.inr rfl

theorem roiV_na_left (box : Val) : roiV Val.na box = Val.na := by
  cases box <;> rfl

theorem roiV_na_right (b : Val) : roiV b Val.na = Val.na := by
  cases b <;> rfl

theorem roiV_num_num {qb qo : ℚ} (h : ¬qb = 0) :
    roiV (Val.num qb) (Val.num qo) = Val.num (round2 ((qo - qb) / qb * 100)) := by
  simp [roiV, subV, divV, mulV, round2V, h]

theorem roiV_zero_pos {qo : ℚ} (h : 0 < qo) :
    roiV (Val.num 0) (Val.num qo) = Val.posInf := by
  have h100 : (0 : ℚ) < 100 := by norm_num
  simp [roiV, subV, divV, mulV, round2V, sub_zero, h, h100]

theorem roiV_zero_neg {qo : ℚ} (h : qo < 0) :
    roiV (Val.num 0) (Val.num qo) = Val.negInf := by
  have h100 : (0 : ℚ) < 100 := by norm_num
  simp [roiV, subV, divV, mulV, round2V, sub_zero, h, not_lt_of_gt h, h100]

theorem roiV_zero_zero : roiV (Val.num 0) (Val.num 0) = Val.na := by
  norm_num [roiV, subV, divV, mulV, round2V]

/-- Presence/absence of the roi value: with budget and box_office each
NaN or finite (as numeric coercion produces), roi is NaN exactly when
one of them is NaN or both are zero; a zero budget with nonzero
box_office gives a signed infinity, not NaN. -/
theorem roiV_char {b o : Val} (hb : b = Val.na ∨ ∃ q, b = Val.num q)
    (ho : o = Val.na ∨ ∃ q, o = Val.num q) :
    (roiV b o = Val.na ↔
      b = Val.na ∨ o = Val.na ∨ (b = Val.num 0 ∧ o = Val.num 0)) := by
  rcases hb with rfl | ⟨qb, rfl⟩
  · simp [roiV_na_left]
  · rcases ho with rfl | ⟨qo, rfl⟩
    · simp [roiV_na_right]
    · constructor
      · intro h
        by_cases hqb : qb = 0
        · subst hqb
          rcases lt_trichotomy qo 0 with hlt | heq | hgt
          · rw [roiV_zero_neg hlt] at h; simp at h
          · subst heq; simp
          · rw [roiV_zero_pos hgt] at h; simp at h
        · rw [roiV_num_num hqb] at h; simp at h
      · intro h
        rcases h with h | h | ⟨h1, h2⟩
        · simp at h
        · simp at h
        · have hb0 : qb = 0 := by simpa using h1
          have ho0 : qo = 0 := by simpa using h2
          subst hb0; subst ho0
          exact roiV_zero_zero

theorem cleanMovie_budget (r : RawRecord) :
    (cleanMovie r).budget = to_numeric r.budget := rfl

theorem cleanMovie_box_office (r : RawRecord) :
    (cleanMovie r).box_office = to_numeric (replaceUnknown r.box_office) := rfl

theorem cleanMovie_roi (r : RawRecord) :
    (cleanMovie r).roi
      = roiV (to_numeric r.budget) (to_numeric (replaceUnknown r.box_office)) := rfl

/-! ### The claims -/

/-- C1, counterexample: with budget 0 and box_office 250 both present,
the claim requires roi to be absent, but the code's float division
yields `inf`: roi is present (an infinite value), not NaN. -/
theorem claim_c1_counterexample :
    (cleanMovie zeroBudgetRecord).budget = Val.num 0
    ∧ (cleanMovie zeroBudgetRecord).box_office = Val.num 250
    ∧ (cleanMovie zeroBudgetRecord).roi = Val.posInf
    ∧ (cleanMovie zeroBudgetRecord).roi ≠ Val.na := by
  have hroi : (cleanMovie zeroBudgetRecord).roi = Val.posInf := by
    rw [cleanMovie_roi]
    show roiV (Val.num 0) (Val.num 250) = Val.posInf
    exact roiV_zero_pos (by norm_num)
  refine ⟨rfl, rfl, hroi, ?_⟩
  rw [hroi]
  simp

/-- C1 (amended): for every record whose cleaned budget and box_office
cells are not infinities (numeric coercion maps infinite float cells,
`inf`-literal strings and overflowing decimals to ±inf), roi is NaN iff
the cleaned budget is NaN, the cleaned box_office is NaN, or both are
zero; with a nonzero finite budget the rounded percentage formula holds
exactly; with budget 0 and positive box_office the roi is `inf`
(present, not absent); the computation is total — it never raises a
division error. -/
theorem claim_c1 (r : RawRecord)
    (hb1 : (cleanMovie r).budget ≠ Val.posInf)
    (hb2 : (cleanMovie r).budget ≠ Val.negInf)
    (ho1 : (cleanMovie r).box_office ≠ Val.posInf)
    (ho2 : (cleanMovie r).box_office ≠ Val.negInf) :
    ((cleanMovie r).roi = Val.na ↔
      (cleanMovie r).budget = Val.na ∨ (cleanMovie r).box_office = Val.na ∨
        ((cleanMovie r).budget = Val.num 0 ∧ (cleanMovie r).box_office = Val.num 0))
    ∧ (∀ qb qo : ℚ, (cleanMovie r).budget = Val.num qb → ¬qb = 0 →
        (cleanMovie r).box_office = Val.num qo →
        (cleanMovie r).roi = Val.num (round2 ((qo - qb) / qb * 100)))
    ∧ (∀ qo : ℚ, (cleanMovie r).budget = Val.num 0 →
        (cleanMovie r).box_office = Val.num qo → 0 < qo →
        (cleanMovie r).roi = Val.posInf) := by
  have hb : to_numeric r.budget = Val.na
      ∨ ∃ q, to_numeric r.budget = Val.num q := by
    rcases to_numeric_cases r.budget with h | h | h | h
    · exact Or.inl h
    · exact Or.inr h
    · exact absurd ((cleanMovie_budget r).trans h) hb1
    · exact absurd ((cleanMovie_budget r).trans h) hb2
  have ho : to_numeric (replaceUnknown r.box_office) = Val.na
      ∨ ∃ q, to_numeric (replaceUnknown r.box_office) = Val.num q := by
    rcases to_numeric_cases (replaceUnknown r.box_office) with h | h | h | h
    · exact Or.inl h
    · exact Or.inr h
    · exact absurd ((cleanMovie_box_office r).trans h) ho1
    · exact absurd ((cleanMovie_box_office r).trans h) ho2
  rw [cleanMovie_budget, cleanMovie_box_office, cleanMovie_roi]
  refine ⟨roiV_char hb ho, ?_, ?_⟩
  · intro qb qo hqb hne hqo
    rw [hqb, hqo, roiV_num_num hne]
  · intro qo h0 hqo hpos
    rw [h0, hqo]
    exact roiV_zero_pos hpos

/-- C1 witness: the roi example budget=100, box_office=250 gives
roi = 150.00. -/
theorem claim_c1_witness :
    (cleanMovie roiExampleRecord).budget ≠ Val.posInf
    ∧ (cleanMovie roiExampleRecord).roi = Val.num 150 := by
  refine ⟨by decide, ?_⟩
  have h := (claim_c1 roiExampleRecord (by decide) (by decide) (by decide)
    (by decide)).2.1 100 250 rfl (by norm_num) rfl
  rw [h]
  norm_num [round2, roundHalfEven]

/-- C2: clean_genres splits the genre string on commas, trims and
corrects each piece, and keeps the first occurrence of each label in
order: the spec's example holds, a missing genre gives no labels, the
output never contains duplicates, is a subsequence of the corrected
pieces, and contains every corrected piece. -/
theorem claim_c2 :
    clean_genres (("Action, Horor, Action, Mistery").data)
      = [("Action").data, ("Horror").data, ("Mystery").data]
    ∧ clean_genres_opt none = []
    ∧ (∀ s : List Char, (clean_genres s).Nodup)
    ∧ (∀ s : List Char,
        List.Sublist (clean_genres s) ((splitChar ',' s).map fix_genre))
    ∧ (∀ s x, x ∈ (splitChar ',' s).map fix_genre → x ∈ clean_genres s) :=
  ⟨by decide, rfl, clean_genres_nodup, clean_genres_sublist,
    fun _ _ => mem_clean_genres_of_mem⟩

/-- C2 witness: the corrected piece "Horror" indeed occurs in the
normalized output of "Action, Horor". -/
theorem claim_c2_witness :
    ("Horror").data ∈ (splitChar ',' (("Action, Horor").data)).map fix_genre
    ∧ ("Horror").data ∈ clean_genres (("Action, Horor").data) :=
  ⟨by decide,
    claim_c2.2.2.2.2 (("Action, Horor").data) (("Horror").data) (by decide)⟩

/-- C3: numeric cleaning never raises: an unparseable string in any of
the four numeric fields — including the sentinel "unknown" in
box_office — yields NaN in the cleaned record, and the record is still
emitted into the movies output. -/
theorem claim_c3 (r : RawRecord) (s : String) (hs : parseNum s.data = none) :
    (r.budget = Val.str s → (cleanMovie r).budget = Val.na)
    ∧ (r.duration = Val.str s → (cleanMovie r).duration = Val.na)
    ∧ (r.release_year = Val.str s → (cleanMovie r).release_year = Val.na)
    ∧ (r.box_office = Val.str s → (cleanMovie r).box_office = Val.na)
    ∧ parseNum (("unknown").data) = none
    ∧ (∀ rs : List RawRecord, r ∈ rs → cleanMovie r ∈ (transform rs).1) := by
  refine ⟨?_, ?_, ?_, ?_, by decide, ?_⟩
  · intro h; rw [cleanMovie_budget, h]; simp [to_numeric, hs]
  · intro h
    show to_numeric r.duration = Val.na
    rw [h]; simp [to_numeric, hs]
  · intro h
    show to_numeric r.release_year = Val.na
    rw [h]; simp [to_numeric, hs]
  · intro h
    rw [cleanMovie_box_office, h]
    rcases replaceUnknown_cases (Val.str s) with hr | hr <;> rw [hr]
    · rfl
    · simp [to_numeric, hs]
  · intro rs hr
    exact List.mem_map_of_mem cleanMovie hr

/-- C3 witness: the garbage budget string coerces to NaN without
aborting the record. -/
theorem claim_c3_witness :
    parseNum (("garbage").data) = none
    ∧ (cleanMovie garbageRecord).budget = Val.na :=
  ⟨by decide, (claim_c3 garbageRecord ("garbage") (by decide)).1 rfl⟩

/-- C4: split produces exactly one CleanedMovie per input record,
whatever the field contents. -/
theorem claim_c4 (rs : List RawRecord) : (transform rs).1.length = rs.length := by
  simp [transform]

/-- C5: the genre-link output is the concatenation, in input order, of
each record's normalized genre labels paired with that record's
(cleaned) title, so its length is the sum of the per-record normalized
genre counts. -/
theorem claim_c5 (rs : List RawRecord) :
    (transform rs).2 = rs.flatMap (fun r => (clean_genres_opt r.genre).map
      (fun g => { title := strStrip r.title, genre := g : MovieGenreLink }))
    ∧ (transform rs).2.length
      = (rs.map (fun r => (clean_genres_opt r.genre).length)).sum := by
  refine ⟨rfl, ?_⟩
  rw [show (transform rs).2 = rs.flatMap genreLinks from rfl, List.length_flatMap]
  congr 1
  refine List.map_congr_left ?_
  intro r _
  simp [genreLinks]

/-- C6: an empty genre string yields the single empty label — blank
tokens (e.g. from a trailing comma) are preserved, not dropped — while
only a missing genre yields zero labels. -/
theorem claim_c6 :
    clean_genres_opt (some ("")) = [("").data]
    ∧ clean_genres_opt none = []
    ∧ clean_genres (("Action,").data) = [("Action").data, ("").data]
    ∧ (∀ s : List Char, 0 < (clean_genres s).length) := by
  refine ⟨by decide, rfl, by decide, fun s => ?_⟩
  cases h : clean_genres s with
  | nil => exact absurd h (clean_genres_ne_nil s)
  | cons a t => simp

/-- C7: genre correction is idempotent on the correction table's value
set: no canonical output form is further rewritten. -/
theorem claim_c7 :
    ∀ g ∈ GENRE_CORRECTIONS.map Prod.snd,
      fix_genre (fix_genre g) = fix_genre g := by
  decide

/-- C7 witness: "Horror" is a table value and a fixed point of
fix_genre. -/
theorem claim_c7_witness :
    ("Horror").data ∈ GENRE_CORRECTIONS.map Prod.snd
    ∧ fix_genre (fix_genre (("Horror").data)) = fix_genre (("Horror").data) :=
  ⟨by decide, claim_c7 (("Horror").data) (by decide)⟩

/-- C8: the movies output keeps no genre column, passes every extra
input column through unchanged, and adds the roi column. -/
theorem claim_c8 (r : RawRecord) (h : ("genre") ∉ r.extra.map Prod.fst) :
    (cleanMovie r).extra = r.extra
    ∧ ("genre") ∉ movieColumns (cleanMovie r)
    ∧ ("roi") ∈ movieColumns (cleanMovie r) := by
  refine ⟨rfl, fun hmem => ?_, by simp [movieColumns]⟩
  rw [movieColumns] at hmem
  rcases List.mem_append.mp hmem with h9 | hx
  · exact absurd h9 (by decide)
  · exact h hx

/-- C8 witness: a record with an extra "color" column keeps it, and its
movies row has roi but no genre column. -/
theorem claim_c8_witness :
    ("genre") ∉ extraColumnRecord.extra.map Prod.fst
    ∧ ((cleanMovie extraColumnRecord).extra = extraColumnRecord.extra
       ∧ ("genre") ∉ movieColumns (cleanMovie extraColumnRecord)
       ∧ ("roi") ∈ movieColumns (cleanMovie extraColumnRecord)) :=
  ⟨by decide, claim_c8 extraColumnRecord (by decide)⟩

/-- C9: every genre link of a record carries the record's cleaned
(whitespace-trimmed) title — the very title its CleanedMovie carries;
the Dune end-to-end scenario holds; duplicated input records stay
separate rows in both outputs (no deduplication by title). -/
theorem claim_c9 :
    (∀ rs : List RawRecord, (transform rs).2 = rs.flatMap (fun r =>
      (clean_genres_opt r.genre).map
        (fun g => { title := (cleanMovie r).title, genre := g : MovieGenreLink })))
    ∧ transform [duneRecord]
      = ([{ title := Val.str ("Dune"), release_year := Val.na, director := Val.na,
            language := Val.na, country := Val.na, duration := Val.na,
            budget := Val.num 165000000, box_office := Val.na, roi := Val.na,
            extra := [] }],
         [{ title := Val.str ("Dune"), genre := ("Action").data }])
    ∧ (∀ r : RawRecord, (transform [r, r]).1 = [cleanMovie r, cleanMovie r]
        ∧ (transform [r, r]).2 = genreLinks r ++ genreLinks r) := by
  refine ⟨fun rs => rfl, ?_, fun r => ⟨rfl, by simp [transform]⟩⟩
  rfl

/-- C10: genre normalization is idempotent: re-normalizing the
comma-space join of its own output is the identity, because every
output label is already trimmed, corrected, and unique. -/
theorem claim_c10 :
    (∀ s : List Char,
      clean_genres (joinCommaSpace (clean_genres s)) = clean_genres s)
    ∧ (∀ s x, x ∈ clean_genres s → fix_genre x = x ∧ pyStrip x = x)
    ∧ (∀ s : List Char, (clean_genres s).Nodup) :=
  ⟨clean_genres_rejoin,
    fun _ _ hx => ⟨mem_clean_genres_fixed hx, mem_clean_genres_stripped hx⟩,
    clean_genres_nodup⟩

/-- C10 witness: "Horror" occurs in a normalized output and is a fixed
point of both correction and trimming. -/
theorem claim_c10_witness :
    ("Horror").data ∈ clean_genres (("Horor").data)
    ∧ (fix_genre (("Horror").data) = ("Horror").data
       ∧ pyStrip (("Horror").data) = ("Horror").data) :=
  ⟨by decide, claim_c10.2.1 (("Horor").data) (("Horror").data) (by decide)⟩

end MoviesEtl
